import Mathlib

/-!
Verification of the rregex wrapper (src/src/rregex.rs) against its
specification.  The repository's own code is the binding layer `RRegExp`;
the regular-expression engine it delegates to (pattern parser and match
engine) is an external library whose code is not part of the repository,
so the engine is modelled here from the specification (leftmost-first
matching, greedy/lazy repetition, capture-name validation, iteration,
replacement and splitting semantics).  Text is modelled as `List Char`,
with one `Char` standing for one encoded unit; offsets are indices into
that list.
-/

/-- Syntax tree of a compiled pattern (spec section 3, SyntaxNode): empty,
literal, concatenation, alternation, repetition with bounds and greediness,
and (possibly named) groups.  Modelled from the spec: the engine's pattern
representation is not part of the repository source. -/
inductive Regex where
  | emptyR : Regex
  | lit : Char → Regex
  | concat : Regex → Regex → Regex
  | alt : Regex → Regex → Regex
  | rep : Regex → Nat → Option Nat → Bool → Regex
  | group : Option (List Char) → Regex → Regex
deriving DecidableEq

/-- Structural size of a pattern, used to compute matching fuel. -/
def sizeR : Regex → Nat
  | .emptyR => 1
  | .lit _ => 1
  | .concat a b => sizeR a + sizeR b + 1
  | .alt a b => sizeR a + sizeR b + 1
  | .rep a _ _ _ => sizeR a + 1
  | .group _ a => sizeR a + 1

/-- Decrement an optional repetition upper bound. -/
def decMax : Option Nat → Option Nat
  | none => none
  | some n => some (n - 1)

/-- Modelled from the spec: the match engine's core.  `matchK fuel r s k`
matches `r` against a prefix of `s` and passes the remaining suffix to the
continuation `k`, backtracking on failure.  Preference order implements
leftmost-first semantics: alternation prefers its left branch, a greedy
repetition prefers one more iteration, a lazy repetition prefers stopping.
Optional repetition iterations must consume at least one character, which
guarantees forward progress.  `fuel` bounds the recursion depth. -/
def matchK : Nat → Regex → List Char → (List Char → Option (List Char)) → Option (List Char)
  | 0, _, _, _ => none
  | fuel + 1, r, s, k =>
    match r with
    | .emptyR => k s
    | .lit c =>
      match s with
      | [] => none
      | x :: xs => if x = c then k xs else none
    | .concat r1 r2 => matchK fuel r1 s (fun s1 => matchK fuel r2 s1 k)
    | .alt r1 r2 =>
      match matchK fuel r1 s k with
      | some t => some t
      | none => matchK fuel r2 s k
    | .group _ r1 => matchK fuel r1 s k
    | .rep r1 mi mx greedy =>
      match mi with
      | m + 1 => matchK fuel r1 s (fun s1 => matchK fuel (.rep r1 m (decMax mx) greedy) s1 k)
      | 0 =>
        match mx with
        | some 0 => k s
        | _ =>
          let step := matchK fuel r1 s (fun s1 =>
            if s1.length < s.length then matchK fuel (.rep r1 0 (decMax mx) greedy) s1 k
            else none)
          if greedy then
            match step with
            | some t => some t
            | none => k s
          else
            match k s with
            | some t => some t
            | none => step

/-- Fuel sufficient for the small inputs matched concretely below. -/
def matchFuel (r : Regex) (s : List Char) : Nat :=
  (sizeR r + 2) * (s.length + 2)

/-- Modelled from the spec: the preferred match of `r` starting exactly at
offset `i` of `s`, returning the end offset of that match. -/
def matchAt? (r : Regex) (s : List Char) (i : Nat) : Option Nat :=
  match matchK (matchFuel r (s.drop i)) r (s.drop i) (fun t => some t) with
  | none => none
  | some rest => some (i + ((s.drop i).length - rest.length))

/-- Modelled from the spec: leftmost-first search beginning at offset
`start` — the first start offset (scanning left to right) at which a match
exists, paired with that match's end offset. -/
def findFrom (r : Regex) (s : List Char) (start : Nat) : Option (Nat × Nat) :=
  (List.range' start (s.length + 1 - start)).findSome?
    (fun i => (matchAt? r s i).map (fun e => (i, e)))

/-- Modelled from the spec: `find` is leftmost-first search from offset 0. -/
def engineFind (r : Regex) (s : List Char) : Option (Nat × Nat) :=
  findFrom r s 0

/-- Modelled from the spec: `is_match` is true iff some match exists
anywhere in the text. -/
def engineIsMatch (r : Regex) (s : List Char) : Bool :=
  (List.range (s.length + 1)).any (fun i => (matchAt? r s i).isSome)

/-- Modelled from the spec: `is_match_at` — some match exists at or after
the given start offset. -/
def engineIsMatchAt (r : Regex) (s : List Char) (start : Nat) : Bool :=
  (List.range' start (s.length + 1 - start)).any (fun i => (matchAt? r s i).isSome)

/-- Modelled from the spec: successive non-overlapping matches; after an
empty match at position `i` the next search begins at `i + 1`, otherwise
at the end of the previous match.  `fuel` bounds the number of matches. -/
def findIterGo (r : Regex) (s : List Char) : Nat → Nat → List (Nat × Nat)
  | 0, _ => []
  | fuel + 1, pos =>
    match findFrom r s pos with
    | none => []
    | some (st, en) => (st, en) :: findIterGo r s fuel (if en = st then en + 1 else en)

/-- Modelled from the spec: `find_iter` — all successive non-overlapping
matches of `r` in `s`, as (start, end) offset pairs. -/
def engineFindIter (r : Regex) (s : List Char) : List (Nat × Nat) :=
  findIterGo r s (s.length + 1) 0

/-- Slice of `s` between offsets `st` (inclusive) and `en` (exclusive). -/
def matchedSlice (s : List Char) (st en : Nat) : List Char :=
  (s.drop st).take (en - st)

/-- Modelled from the spec: expansion of a replacement template against a
match: a dollar sign followed by `0` expands to the whole matched text,
a dollar sign followed by another digit expands to that capture group
(empty here: the model tracks only the whole match), any other character
is copied literally. -/
def expandTemplate (matched : List Char) : List Char → List Char
  | [] => []
  | c :: rest =>
    if c = '$' then
      match rest with
      | [] => [c]
      | d :: rest2 =>
        if d = '0' then matched ++ expandTemplate matched rest2
        else if d.isDigit then expandTemplate matched rest2
        else c :: d :: expandTemplate matched rest2
    else c :: expandTemplate matched rest

/-- Modelled from the spec: rebuild the output text from an ordered list of
match ranges, keeping unmatched segments and expanding the template at each
match.  `prev` is the end of the previously consumed segment. -/
def rebuildRep (s rep : List Char) : Nat → List (Nat × Nat) → List Char
  | prev, [] => s.drop prev
  | prev, (st, en) :: ms =>
    (s.drop prev).take (st - prev) ++ expandTemplate (matchedSlice s st en) rep
      ++ rebuildRep s rep en ms

/-- Modelled from the spec: `replacen` replaces at most `limit`
non-overlapping matches; a limit of 0 replaces all of them. -/
def engineReplacen (r : Regex) (s : List Char) (limit : Nat) (rep : List Char) : List Char :=
  rebuildRep s rep 0 (if limit = 0 then engineFindIter r s else (engineFindIter r s).take limit)

/-- Modelled from the spec: `replace` replaces only the first
leftmost-first match. -/
def engineReplace (r : Regex) (s : List Char) (rep : List Char) : List Char :=
  engineReplacen r s 1 rep

/-- Modelled from the spec's own words for the refinement claim:
`replace_all` replaces all non-overlapping matches in the text. -/
def engineReplaceAll (r : Regex) (s : List Char) (rep : List Char) : List Char :=
  rebuildRep s rep 0 (engineFindIter r s)

/-- Modelled from the spec: the substrings of `s` delimited by the given
match ranges; the text after the final delimiter is the last element. -/
def splitAux (s : List Char) : Nat → List (Nat × Nat) → List (List Char)
  | prev, [] => [s.drop prev]
  | prev, (st, en) :: ms => (s.drop prev).take (st - prev) :: splitAux s en ms

/-- Modelled from the spec: `split` — substrings delimited by every match. -/
def engineSplit (r : Regex) (s : List Char) : List (List Char) :=
  splitAux s 0 (engineFindIter r s)

/-- Modelled from the spec: `splitn` — at most `limit` substrings; a limit
of 0 yields no substrings; only the first `limit - 1` matches delimit, and
the remainder of the text is the final element. -/
def engineSplitn (r : Regex) (s : List Char) (limit : Nat) : List (List Char) :=
  if limit = 0 then [] else splitAux s 0 ((engineFindIter r s).take (limit - 1))

/-- End offset of the last range in the list, or `prev` if there is none. -/
def lastEnd (prev : Nat) : List (Nat × Nat) → Nat
  | [] => prev
  | m :: ms => lastEnd m.2 ms

/-- Modelled from the spec: `shortest_match` reports an end offset of a
match starting at the earliest possible point. -/
def engineShortest (r : Regex) (s : List Char) : Option Nat :=
  (engineFind r s).map (fun m => m.2)

/-- Leading decimal digits of the input and the rest. -/
def takeDigits (s : List Char) : List Char × List Char :=
  (s.takeWhile Char.isDigit, s.dropWhile Char.isDigit)

/-- Numeric value of a digit string. -/
def digitsToNat (ds : List Char) : Nat :=
  ds.foldl (fun acc c => 10 * acc + (c.toNat - 48)) 0

/-- Modelled from the spec: parse a capture group name up to the closing
angle bracket; names are alphanumeric or underscore and must be
nonempty. -/
def parseName (s : List Char) : Except String (List Char × List Char) :=
  let nm := s.takeWhile (fun c => c.isAlphanum || c = '_')
  let rest := s.dropWhile (fun c => c.isAlphanum || c = '_')
  if nm.isEmpty then .error "empty capture group name"
  else
    match rest with
    | '>' :: rest2 => .ok (nm, rest2)
    | _ => .error "invalid capture group name"

/-- Modelled from the spec: parse a counted repetition bound after the
opening brace; an inverted bound (maximum below minimum) is a semantic
error. -/
def parseCounted (r : Regex) (s : List Char) : Except String (Regex × List Char) :=
  let (ds, s1) := takeDigits s
  if ds.isEmpty then .error "repetition quantifier expects a valid decimal"
  else
    let m := digitsToNat ds
    match s1 with
    | '\x7d' :: '?' :: rest => .ok (.rep r m (some m) false, rest)
    | '\x7d' :: rest => .ok (.rep r m (some m) true, rest)
    | ',' :: s2 =>
      let (ds2, s3) := takeDigits s2
      match s3 with
      | '\x7d' :: '?' :: rest =>
        if ds2.isEmpty then .ok (.rep r m none false, rest)
        else if digitsToNat ds2 < m then .error "invalid repetition range"
        else .ok (.rep r m (some (digitsToNat ds2)) false, rest)
      | '\x7d' :: rest =>
        if ds2.isEmpty then .ok (.rep r m none true, rest)
        else if digitsToNat ds2 < m then .error "invalid repetition range"
        else .ok (.rep r m (some (digitsToNat ds2)) true, rest)
      | _ => .error "unclosed counted repetition"
    | _ => .error "unclosed counted repetition"

/-- Modelled from the spec: apply postfix repetition operators (star, plus,
question mark, counted bounds), each optionally made lazy by a trailing
question mark. -/
def parseOps : Nat → Regex → List Char → Except String (Regex × List Char)
  | 0, _, _ => .error "too many repetition operators"
  | fuel + 1, r, s =>
    match s with
    | '*' :: '?' :: rest => parseOps fuel (.rep r 0 none false) rest
    | '*' :: rest => parseOps fuel (.rep r 0 none true) rest
    | '+' :: '?' :: rest => parseOps fuel (.rep r 1 none false) rest
    | '+' :: rest => parseOps fuel (.rep r 1 none true) rest
    | '?' :: '?' :: rest => parseOps fuel (.rep r 0 (some 1) false) rest
    | '?' :: rest => parseOps fuel (.rep r 0 (some 1) true) rest
    | '\x7b' :: rest =>
      match parseCounted r rest with
      | .error e => .error e
      | .ok (r2, rest2) => parseOps fuel r2 rest2
    | _ => .ok (r, s)

/-- Modelled from the spec: recursive-descent pattern parser over the
modelled grammar subset (literals, escapes, groups, named groups,
non-capturing groups, repetition operators, alternation, concatenation).
The mode argument selects the grammar production: 0 parses an alternation,
1 a concatenation, and any other value a suffixed atom.  A repetition
operator with no preceding expression is an error, as are the class,
anchor and wildcard constructs this model leaves out. -/
def parseP : Nat → Nat → List Char → Except String (Regex × List Char)
  | 0, _, _ => .error "pattern too deeply nested"
  | fuel + 1, 0, s =>
    match parseP fuel 1 s with
    | .error e => .error e
    | .ok (r1, s1) =>
      match s1 with
      | '|' :: s2 =>
        match parseP fuel 0 s2 with
        | .error e => .error e
        | .ok (r2, s3) => .ok (.alt r1 r2, s3)
      | _ => .ok (r1, s1)
  | fuel + 1, 1, s =>
    match s with
    | [] => .ok (.emptyR, [])
    | c :: _ =>
      if c = ')' ∨ c = '|' then .ok (.emptyR, s)
      else
        match parseP fuel 2 s with
        | .error e => .error e
        | .ok (r1, s1) =>
          match parseP fuel 1 s1 with
          | .error e => .error e
          | .ok (r2, s2) => .ok (.concat r1 r2, s2)
  | fuel + 1, _ + 2, s =>
    match s with
    | '(' :: '?' :: ':' :: s2 =>
      match parseP fuel 0 s2 with
      | .error e => .error e
      | .ok (r, s3) =>
        match s3 with
        | ')' :: s4 => parseOps (s4.length + 1) r s4
        | _ => .error "unclosed group"
    | '(' :: '?' :: 'P' :: '<' :: s2 =>
      match parseName s2 with
      | .error e => .error e
      | .ok (nm, s3) =>
        match parseP fuel 0 s3 with
        | .error e => .error e
        | .ok (r, s4) =>
          match s4 with
          | ')' :: s5 => parseOps (s5.length + 1) (.group (some nm) r) s5
          | _ => .error "unclosed group"
    | '(' :: s2 =>
      match parseP fuel 0 s2 with
      | .error e => .error e
      | .ok (r, s3) =>
        match s3 with
        | ')' :: s4 => parseOps (s4.length + 1) (.group none r) s4
        | _ => .error "unclosed group"
    | '\\' :: c :: s2 => parseOps (s2.length + 1) (.lit c) s2
    | '\\' :: [] => .error "trailing backslash"
    | c :: s2 =>
      if c = '*' ∨ c = '+' ∨ c = '?' ∨ c = '\x7b' then
        .error "repetition operator missing expression"
      else if c = ')' ∨ c = '|' ∨ c = '.' ∨ c = '[' ∨ c = '^' ∨ c = '$' ∨ c = '\x7d' then
        .error "unsupported or misplaced character"
      else parseOps (s2.length + 1) (.lit c) s2
    | [] => .error "unexpected end of pattern"

/-- Capture group names declared in a pattern, in left-to-right order. -/
def namesOf : Regex → List (List Char)
  | .emptyR => []
  | .lit _ => []
  | .concat a b => namesOf a ++ namesOf b
  | .alt a b => namesOf a ++ namesOf b
  | .rep a _ _ _ => namesOf a
  | .group none a => namesOf a
  | .group (some n) a => n :: namesOf a

/-- Modelled from the spec: full pattern compilation — parse the whole
pattern, reject trailing input, and reject duplicate capture group names
as a semantic error. -/
def parseRegex (p : List Char) : Except String Regex :=
  match parseP (3 * p.length + 3) 0 p with
  | .error e => .error e
  | .ok (r, []) =>
    if (namesOf r).Nodup then .ok r else .error "duplicate capture group name"
  | .ok (_, _ :: _) => .error "unmatched closing parenthesis"

/-- Compiled regular expression, from src/src/rregex.rs: the wrapper
retains the compiled pattern (whose original text is recoverable from it)
and delegates every operation to the engine. -/
structure RRegExp where
  pattern : List Char
  regex : Regex
deriving DecidableEq

/-- Constructor `RRegExp::new` from src/src/rregex.rs: compile the pattern,
propagating a compile error, otherwise wrap the compiled value. -/
def RRegExp.new (re : List Char) : Except String RRegExp :=
  match parseRegex re with
  | .error e => .error e
  | .ok r => .ok { pattern := re, regex := r }

/-- Method `is_match` from src/src/rregex.rs: delegates to the engine. -/
def RRegExp.is_match (self : RRegExp) (text : List Char) : Bool :=
  engineIsMatch self.regex text

/-- Method `is_match_at` from src/src/rregex.rs: returns false when the
text length is below the start offset, else delegates to the engine. -/
def RRegExp.is_match_at (self : RRegExp) (text : List Char) (start : Nat) : Bool :=
  if text.length < start then false
  else engineIsMatchAt self.regex text start

/-- Method `find` from src/src/rregex.rs: delegates to the engine. -/
def RRegExp.find (self : RRegExp) (text : List Char) : Option (Nat × Nat) :=
  engineFind self.regex text

/-- Method `find_at` from src/src/rregex.rs: returns the absent value when
the text length is below the start offset, else delegates to the engine. -/
def RRegExp.find_at (self : RRegExp) (text : List Char) (start : Nat) : Option (Nat × Nat) :=
  if text.length < start then none
  else findFrom self.regex text start

/-- Method `find_all` from src/src/rregex.rs: collects every successive
non-overlapping match. -/
def RRegExp.find_all (self : RRegExp) (text : List Char) : List (Nat × Nat) :=
  engineFindIter self.regex text

/-- Method `replace` from src/src/rregex.rs: delegates to the engine. -/
def RRegExp.replace (self : RRegExp) (text rep : List Char) : List Char :=
  engineReplace self.regex text rep

/-- Method `replacen` from src/src/rregex.rs: delegates to the engine. -/
def RRegExp.replacen (self : RRegExp) (text : List Char) (limit : Nat) (rep : List Char) : List Char :=
  engineReplacen self.regex text limit rep

/-- Method `replace_all` from src/src/rregex.rs: delegates to the engine. -/
def RRegExp.replace_all (self : RRegExp) (text rep : List Char) : List Char :=
  engineReplaceAll self.regex text rep

/-- Method `split` from src/src/rregex.rs: delegates to the engine. -/
def RRegExp.split (self : RRegExp) (text : List Char) : List (List Char) :=
  engineSplit self.regex text

/-- Method `splitn` from src/src/rregex.rs: delegates to the engine. -/
def RRegExp.splitn (self : RRegExp) (text : List Char) (limit : Nat) : List (List Char) :=
  engineSplitn self.regex text limit

/-- Method `shortest_match` from src/src/rregex.rs: delegates to the
engine. -/
def RRegExp.shortest_match (self : RRegExp) (text : List Char) : Option Nat :=
  engineShortest self.regex text

/-- Method `shortest_match_at` from src/src/rregex.rs (its start parameter
is named `limit` in the source): returns the absent value when the text
length is below the start offset, else delegates to the engine. -/
def RRegExp.shortest_match_at (self : RRegExp) (text : List Char) (limit : Nat) : Option Nat :=
  if text.length < limit then none
  else (findFrom self.regex text limit).map (fun m => m.2)

/-- Method `syntax` of src/src/rregex.rs (named `hir` here because the
source's name is reserved): re-parses the retained pattern text with a
fresh parser and returns the resulting structural tree or an error. -/
def RRegExp.hir (self : RRegExp) : Except String Regex :=
  parseRegex self.pattern

/-- Method `to_string` from src/src/rregex.rs: the retained pattern text. -/
def RRegExp.toString (self : RRegExp) : List Char :=
  self.pattern

/-- The end offset reported by `matchAt?` is at least the start offset. -/
theorem matchAt?_le {r : Regex} {s : List Char} {i e : Nat}
    (h : matchAt? r s i = some e) : i ≤ e := by
  unfold matchAt? at h
  cases hm : matchK (matchFuel r (s.drop i)) r (s.drop i) (fun t => some t) with
  | none => rw [hm] at h; exact absurd h (by simp)
  | some rest =>
    rw [hm] at h
    simp only [Option.some.injEq] at h
    omega

/-- A match found from offset `pos` starts at or after `pos` and its range
is well formed. -/
theorem findFrom_bounds {r : Regex} {s : List Char} {pos : Nat} {m : Nat × Nat}
    (h : findFrom r s pos = some m) : pos ≤ m.1 ∧ m.1 ≤ m.2 := by
  obtain ⟨i, hi, hfi⟩ := List.exists_of_findSome?_eq_some h
  rw [List.mem_range'_1] at hi
  cases hm : matchAt? r s i with
  | none => rw [hm] at hfi; exact absurd hfi (by simp)
  | some e =>
    rw [hm] at hfi
    simp only [Option.map_some', Option.some.injEq] at hfi
    subst hfi
    exact ⟨hi.1, matchAt?_le hm⟩

/-- Every match the iterator produces from `pos` starts at or after `pos`,
the produced matches are pairwise increasing and non-overlapping, and an
empty match forces the next start at least one unit further. -/
theorem findIterGo_props (r : Regex) (s : List Char) :
    ∀ fuel pos,
      (∀ m ∈ findIterGo r s fuel pos, pos ≤ m.1 ∧ m.1 ≤ m.2) ∧
      List.Pairwise (fun a b : Nat × Nat => a.1 < b.1 ∧ a.2 ≤ b.1)
        (findIterGo r s fuel pos) ∧
      List.Chain' (fun a b : Nat × Nat => a.1 = a.2 → a.1 + 1 ≤ b.1)
        (findIterGo r s fuel pos) := by
  intro fuel
  induction fuel with
  | zero => intro pos; simp [findIterGo]
  | succ fuel ih =>
    intro pos
    cases h : findFrom r s pos with
    | none => simp [findIterGo, h]
    | some m =>
      obtain ⟨st, en⟩ := m
      have hb := findFrom_bounds h
      simp only at hb
      have hgo : findIterGo r s (fuel + 1) pos =
          (st, en) :: findIterGo r s fuel (if en = st then en + 1 else en) := by
        simp [findIterGo, h]
      obtain ⟨ihA, ihP, ihC⟩ := ih (if en = st then en + 1 else en)
      have h1 : st + 1 ≤ if en = st then en + 1 else en := by
        split <;> omega
      have h2 : en ≤ if en = st then en + 1 else en := by
        split <;> omega
      rw [hgo]
      refine ⟨?_, ?_, ?_⟩
      · intro x hx
        rcases List.mem_cons.mp hx with rfl | hx'
        · exact hb
        · have hx2 := ihA x hx'
          exact ⟨by omega, hx2.2⟩
      · rw [List.pairwise_cons]
        refine ⟨?_, ihP⟩
        intro b hbmem
        have hble := (ihA b hbmem).1
        exact ⟨by omega, by omega⟩
      · rw [List.chain'_cons']
        refine ⟨?_, ihC⟩
        intro y hy _
        have hyle := (ihA y (List.mem_of_mem_head? hy)).1
        omega

/-- Each substring list from `splitAux` has one more element than its list
of delimiting ranges. -/
theorem splitAux_length (s : List Char) (ms : List (Nat × Nat)) :
    ∀ prev, (splitAux s prev ms).length = ms.length + 1 := by
  induction ms with
  | nil => intro prev; simp [splitAux]
  | cons m t ih =>
    intro prev
    obtain ⟨st, en⟩ := m
    simp [splitAux, ih]

/-- The final element produced by `splitAux` is the whole remainder of the
input after the last delimiting range. -/
theorem splitAux_last (s : List Char) (ms : List (Nat × Nat)) :
    ∀ prev, ∃ init, splitAux s prev ms = init ++ [s.drop (lastEnd prev ms)] := by
  induction ms with
  | nil => intro prev; exact ⟨[], rfl⟩
  | cons m t ih =>
    intro prev
    obtain ⟨st, en⟩ := m
    obtain ⟨init, hinit⟩ := ih en
    exact ⟨(s.drop prev).take (st - prev) :: init, by simp [splitAux, lastEnd, hinit]⟩

/-- C1: for every compiled pattern, text and start offset strictly greater
than the text length, `is_match_at` returns false and `find_at` and
`shortest_match_at` return the absent value; all three are total
functions, so none of the calls faults. -/
theorem out_of_range_start_returns_no_match (re : RRegExp) (text : List Char)
    (start : Nat) (h : text.length < start) :
    re.is_match_at text start = false ∧ re.find_at text start = none ∧
      re.shortest_match_at text start = none := by
  refine ⟨?_, ?_, ?_⟩ <;>
    simp [RRegExp.is_match_at, RRegExp.find_at, RRegExp.shortest_match_at, h]

/-- Witness for C1 at a concrete pattern, text and offset. -/
theorem out_of_range_start_returns_no_match_witness :
    RRegExp.is_match_at { pattern := [], regex := .emptyR } [] 1 = false ∧
      RRegExp.find_at { pattern := [], regex := .emptyR } [] 1 = none ∧
      RRegExp.shortest_match_at { pattern := [], regex := .emptyR } [] 1 = none :=
  out_of_range_start_returns_no_match _ _ _ (by decide)

/-- C2: for every compiled pattern and text, `is_match` returns true
exactly when `find` returns a present match. -/
theorem isMatch_eq_find_isSome (re : RRegExp) (text : List Char) :
    re.is_match text = (re.find text).isSome := by
  rw [Bool.eq_iff_iff]
  simp [RRegExp.is_match, RRegExp.find, engineIsMatch, engineFind, findFrom,
    List.range_eq_range', List.any_eq_true]

/-- C3: compiling the pattern with inverted repetition bound and the
pattern with a duplicate capture name both yields an error value, and a
successful compile always returns a fully constructed wrapper: it retains
exactly the input pattern and exactly the parsed regex that the input
compiles to. -/
theorem new_rejects_invalid_never_partial :
    ((RRegExp.new (("\x7b5,2\x7d").data)).isOk = false) ∧
      ((RRegExp.new (("(?P<x>a)(?P<x>b)").data)).isOk = false) ∧
      ∀ p, match RRegExp.new p with
        | .ok re => re.pattern = p ∧ parseRegex p = .ok re.regex
        | .error _ => True := by
  refine ⟨by decide, by decide, ?_⟩
  intro p
  cases h : parseRegex p with
  | error e => simp [RRegExp.new, h]
  | ok r => simp [RRegExp.new, h]

/-- C4: for every compiled pattern, text and template, `replace_all`
returns exactly what `replacen` with limit 0 returns. -/
theorem replaceAll_eq_replacen_zero (re : RRegExp) (text rep : List Char) :
    re.replace_all text rep = re.replacen text 0 rep := by
  simp [RRegExp.replace_all, RRegExp.replacen, engineReplaceAll, engineReplacen]

/-- C5: when the pattern has no match in the text, `replace` returns the
input text unchanged. -/
theorem replace_no_match_identity (re : RRegExp) (text rep : List Char)
    (h : re.find text = none) : re.replace text rep = text := by
  have h0 : findFrom re.regex text 0 = none := h
  have hIter : engineFindIter re.regex text = [] := by
    simp [engineFindIter, findIterGo, h0]
  simp [RRegExp.replace, engineReplace, engineReplacen, hIter, rebuildRep]

/-- Witness for C5 at a concrete pattern, text and template. -/
theorem replace_no_match_identity_witness :
    RRegExp.replace { pattern := [','], regex := .lit ',' } (("ab").data) [] =
      ("ab").data :=
  replace_no_match_identity _ _ _ (by decide)

/-- C6: `find_all` returns a finite list of matches with strictly
increasing start offsets and pairwise non-overlapping ranges, and after an
empty match at offset i the following match starts at offset at least
i + 1, so the iteration always makes forward progress. -/
theorem findAll_increasing_nonoverlapping_progress (re : RRegExp) (text : List Char) :
    List.Pairwise (fun a b : Nat × Nat => a.1 < b.1 ∧ a.2 ≤ b.1) (re.find_all text) ∧
      List.Chain' (fun a b : Nat × Nat => a.1 = a.2 → a.1 + 1 ≤ b.1)
        (re.find_all text) := by
  have h := findIterGo_props re.regex text (text.length + 1) 0
  exact ⟨h.2.1, h.2.2⟩

/-- C7: `splitn` returns at most `limit` substrings, a limit of 0 returns
the empty list, and for every positive limit the final element is the
entire remainder of the input after the last delimiter actually used. -/
theorem splitn_limit_zero_and_remainder (re : RRegExp) (text : List Char) (limit : Nat) :
    (re.splitn text limit).length ≤ limit ∧
      re.splitn text 0 = [] ∧
      ∃ init, re.splitn text (limit + 1) =
        init ++ [text.drop (lastEnd 0 ((re.find_all text).take limit))] := by
  refine ⟨?_, by simp [RRegExp.splitn, engineSplitn], ?_⟩
  · cases limit with
    | zero => simp [RRegExp.splitn, engineSplitn]
    | succ n =>
      simp only [RRegExp.splitn, engineSplitn, if_neg (Nat.succ_ne_zero n)]
      rw [splitAux_length]
      have hle : ((engineFindIter re.regex text).take (n + 1 - 1)).length ≤ n := by
        rw [List.length_take]
        omega
      omega
  · simp only [RRegExp.splitn, RRegExp.find_all, engineSplitn,
      if_neg (Nat.succ_ne_zero limit), Nat.add_sub_cancel]
    exact splitAux_last text _ 0

/-- C8: pattern a+ compiled and run with find against the text aaa matches
the byte range from 0 to 3, while the lazy pattern a+? matches only the
range from 0 to 1. -/
theorem greedy_plus_full_lazy_plus_single :
    ((RRegExp.new (("a+").data)).map (fun re => re.find (("aaa").data)) =
      .ok (some (0, 3))) ∧
      ((RRegExp.new (("a+?").data)).map (fun re => re.find (("aaa").data)) =
        .ok (some (0, 1))) := by
  exact ⟨rfl, rfl⟩

/-- C10: whenever the constructor succeeds, re-parsing the retained
pattern through the structural introspection method succeeds as well: it
never takes its error branch. -/
theorem hir_succeeds_after_new (p : List Char) :
    match RRegExp.new p with
    | .ok re => (RRegExp.hir re).isOk = true
    | .error _ => True := by
  cases h : parseRegex p with
  | error e => simp [RRegExp.new, h]
  | ok r => simp [RRegExp.new, h, RRegExp.hir, Except.isOk, Except.toBool]
